import Mathlib

/-!
Shallow embedding of the key-item subsystem of libregf
(src/libregf/libregf_key_item.c) and proofs about it.

Cell payloads are byte lists (`List Nat`), 32-bit file offsets are `Nat`
with the sentinel `0xffffffff = 4294967295`, and the fallible C functions
(return 1 / 0 / -1) become Lean functions into `Except` or pairs carrying
an explicit corruption flag.  Machine arithmetic that can wrap is written
with an explicit `% 4294967296`.
-/

/-- Byte sequences: cell payloads as lists of byte values. -/
abbrev Bytes := List Nat

/-- Little-endian 16-bit read at position `i` of a payload
(`byte_stream_copy_to_uint16_little_endian`). -/
def le16 (d : Bytes) (i : Nat) : Nat :=
  d.getD i 0 + 256 * d.getD (i + 1) 0

/-- Little-endian 32-bit read at position `i` of a payload
(`byte_stream_copy_to_uint32_little_endian`). -/
def le32 (d : Bytes) (i : Nat) : Nat :=
  d.getD i 0 + 256 * d.getD (i + 1) 0 + 65536 * d.getD (i + 2) 0 +
    16777216 * d.getD (i + 3) 0

/-- Modelled from the spec: the *BinCellStore* interface of section 6
(`libregf_hive_bins_list.c` is not among the analysed sources).
`getCellAtOffset` is `libregf_hive_bins_list_get_cell_at_offset`: it
returns the payload bytes of the cell at a file offset, or `none` when the
fetch fails.  `getIndexAtOffset` is
`libregf_hive_bins_list_get_index_at_offset`: it reports whether the
offset falls inside a known hive-bin range (the C -1 error return is not
modelled; callers treat it as a fatal error).  A fetch returns the cell's
true file bytes regardless of the internal cache state. -/
structure HiveBinsList where
  getCellAtOffset : Nat → Option Bytes
  getIndexAtOffset : Nat → Bool

/-- Error kinds surfaced by the key-item functions, following the
`libcerror` codes used in `libregf_key_item.c`. -/
inductive KeyErr where
  | invalidOffset
  | fetchFailed
  | cellTooSmall
  | badSignature
  | sizeOutOfBounds
  | decodeFailed
  | fuelExhausted
  deriving DecidableEq, Repr

/-- A sub-node descriptor appended to the key tree node by
`libfdata_tree_node_append_sub_node`: the element's cell offset and the
name hash carried in the size slot. -/
structure SubNode where
  offset : Nat
  hash : Nat
  deriving DecidableEq, Repr

/-- Signature dispatch of `libregf_key_item_read_sub_keys_list`
(libregf_key_item.c:1384-1413): maps the two signature bytes to the
element size and leaf-level flag.  Bytes: r = 114, i = 105, l = 108,
f = 102, h = 104. -/
def sigKind (d : Bytes) : Option (Nat × Bool) :=
  if d.getD 0 0 = 114 ∧ d.getD 1 0 = 105 then some (4, false)
  else if d.getD 0 0 = 108 ∧ d.getD 1 0 = 105 then some (4, true)
  else if d.getD 0 0 = 108 ∧ (d.getD 1 0 = 102 ∨ d.getD 1 0 = 104) then some (8, true)
  else none

/-- Structural checks of a sub-keys index cell
(libregf_key_item.c:1371-1446).  The 4-byte header size is modelled from
the spec: `sizeof( regf_sub_key_list_t )` lives in `regf_cell_values.h`,
which is not among the analysed sources; spec section 4.3 fixes the header
at 2 signature bytes plus a 2-byte element count.  On success returns the
element size, the leaf-level flag and the 16-bit element count. -/
def parseSubKeysList (d : Bytes) : Except KeyErr (Nat × Bool × Nat) :=
  if d.length < 4 then .error .cellTooSmall
  else
    match sigKind d with
    | none => .error .badSignature
    | some (esize, atLeaf) =>
      if d.length - 4 < le16 d 2 * esize then .error .sizeOutOfBounds
      else .ok (esize, atLeaf, le16 d 2)

/-- The element records of a sub-keys index cell: for element `i`, the
32-bit offset at payload position `4 + i * esize` and, for 8-byte
elements, the 32-bit name hash at `8 + i * esize` (hash 0 otherwise),
as read by the loop at libregf_key_item.c:1447-1491. -/
def subKeysListElems (d : Bytes) (esize n : Nat) : List (Nat × Nat) :=
  (List.range n).map fun i =>
    (le32 d (4 + i * esize), if esize = 8 then le32 d (8 + i * esize) else 0)

/-- The element loop of `libregf_key_item_read_sub_keys_list`
(libregf_key_item.c:1447-1560), parameterised by the recursive walk used
for elements below leaf level.  Returns the sub-node descriptors appended
(also the ones appended before a fatal error) and, on non-error,
the `corruption_detected` flag: an element offset outside every known bin
range is skipped and sets the flag; a known offset is appended at leaf
level or recursed into otherwise, a recursive corruption result setting
the flag and a recursive fatal error aborting the loop. -/
def processSubKeysElems (known : Nat → Bool)
    (walk : Nat → List SubNode × Except KeyErr Bool) (atLeaf : Bool) :
    List (Nat × Nat) → List SubNode × Except KeyErr Bool
  | [] => ([], .ok false)
  | (off, h) :: rest =>
    if known off then
      if atLeaf then
        let r := processSubKeysElems known walk atLeaf rest
        (⟨off, h⟩ :: r.1, r.2)
      else
        match walk off with
        | (ns, .error e) => (ns, .error e)
        | (ns, .ok b) =>
          let r := processSubKeysElems known walk atLeaf rest
          (ns ++ r.1,
            match r.2 with
            | .error e => .error e
            | .ok b2 => .ok (b || b2))
    else
      let r := processSubKeysElems known walk atLeaf rest
      (r.1,
        match r.2 with
        | .error e => .error e
        | .ok _ => .ok true)

/-- `libregf_key_item_read_sub_keys_list` (libregf_key_item.c:1249-1597):
the recursive walk over `lf`/`lh`/`li`/`ri` index cells.  The payload is
bound locally before any recursion, mirroring the local copy at
libregf_key_item.c:1329-1358.  The result `.ok b` models the C returns 1
(`b = false`) and 0 (`b = true`, corruption detected); `.error` models -1.
`fuel` bounds the recursion depth, which the C code leaves unbounded; the
on-disk format permits offset cycles. -/
def readSubKeysList (hb : HiveBinsList) : Nat → Nat → List SubNode × Except KeyErr Bool
  | 0, _ => ([], .error .fuelExhausted)
  | fuel + 1, off =>
    if off = 0 ∨ off = 4294967295 then ([], .error .invalidOffset)
    else
      match hb.getCellAtOffset off with
      | none => ([], .error .fetchFailed)
      | some d =>
        match parseSubKeysList d with
        | .error e => ([], .error e)
        | .ok (esize, atLeaf, n) =>
          processSubKeysElems hb.getIndexAtOffset (readSubKeysList hb fuel) atLeaf
            (subKeysListElems d esize n)

/-- `libregf_key_item_read_sub_nodes` (libregf_key_item.c:1602-1648): the
tree's sub-nodes loader.  A fatal error of the walk propagates; the
corruption return 0 is converted to success and nothing else is done with
it (the C code holds only a TODO comment at libregf_key_item.c:1645; in
particular no key item flag is written on this path). -/
def readSubNodes (hb : HiveBinsList) (fuel off : Nat) :
    List SubNode × Except KeyErr Unit :=
  match readSubKeysList hb fuel off with
  | (ns, .error e) => (ns, .error e)
  | (ns, .ok _) => (ns, .ok ())

/-- The element loop of `libregf_key_item_read_sub_keys_list` threading an
explicit store cache state, for the cache-independence claim. -/
def processSubKeysElemsSt {σ : Type} (known : Nat → Bool)
    (walkSt : Nat → σ → (List SubNode × Except KeyErr Bool) × σ) (atLeaf : Bool) :
    List (Nat × Nat) → σ → (List SubNode × Except KeyErr Bool) × σ
  | [], s => (([], .ok false), s)
  | (off, h) :: rest, s =>
    if known off then
      if atLeaf then
        let r := processSubKeysElemsSt known walkSt atLeaf rest s
        ((⟨off, h⟩ :: r.1.1, r.1.2), r.2)
      else
        match walkSt off s with
        | ((ns, .error e), s1) => ((ns, .error e), s1)
        | ((ns, .ok b), s1) =>
          let r := processSubKeysElemsSt known walkSt atLeaf rest s1
          ((ns ++ r.1.1,
             match r.1.2 with
             | .error e => .error e
             | .ok b2 => .ok (b || b2)), r.2)
    else
      let r := processSubKeysElemsSt known walkSt atLeaf rest s
      ((r.1.1,
         match r.1.2 with
         | .error e => .error e
         | .ok _ => .ok true), r.2)

/-- `libregf_key_item_read_sub_keys_list` run against a *BinCellStore*
whose internal cache state `σ` is advanced by an arbitrary adversarial
`step` on every cell fetch (the store may evict or permute its cache
between any two fetches, spec section 5).  Per the store contract a fetch
returns the cell's true file bytes whatever the cache state, and the walk
binds the payload before recursing, mirroring the local copy at
libregf_key_item.c:1329-1358, so no borrow is held across a fetch. -/
def readSubKeysListSt {σ : Type} (hb : HiveBinsList) (step : σ → Nat → σ) :
    Nat → Nat → σ → (List SubNode × Except KeyErr Bool) × σ
  | 0, _, s => (([], .error .fuelExhausted), s)
  | fuel + 1, off, s =>
    if off = 0 ∨ off = 4294967295 then (([], .error .invalidOffset), s)
    else
      let s1 := step s off
      match hb.getCellAtOffset off with
      | none => (([], .error .fetchFailed), s1)
      | some d =>
        match parseSubKeysList d with
        | .error e => (([], .error e), s1)
        | .ok (esize, atLeaf, n) =>
          processSubKeysElemsSt hb.getIndexAtOffset (readSubKeysListSt hb step fuel)
            atLeaf (subKeysListElems d esize n) s1

/-- The 32-bit offsets stored in a values-list cell: element `i` at
payload position `i * 4` (libregf_key_item.c:1064-1073). -/
def valuesListElems (d : Bytes) (n : Nat) : List Nat :=
  (List.range n).map fun i => le32 d (i * 4)

/-- The element loop of `libregf_key_item_read_values_list`
(libregf_key_item.c:1064-1125): an element offset outside every known bin
range is skipped and sets the corruption flag, a known offset is appended
in order. -/
def valuesListLoop (known : Nat → Bool) : List Nat → List Nat × Bool
  | [] => ([], false)
  | off :: rest =>
    let r := valuesListLoop known rest
    if known off then (off :: r.1, r.2) else (r.1, true)

/-- `libregf_key_item_read_values_list` (libregf_key_item.c:964-1147).
Returns the appended element offsets and the corruption flag contribution.
The size check at libregf_key_item.c:1053 multiplies the 32-bit element
count by 4 in C `uint32_t` arithmetic, hence the explicit
`% 4294967296`. -/
def readValuesList (hb : HiveBinsList) (numberOfValues listOffset : Nat) :
    Except KeyErr (List Nat × Bool) :=
  if numberOfValues = 0 then .ok ([], false)
  else if listOffset = 0 ∨ listOffset = 4294967295 then .error .invalidOffset
  else
    match hb.getCellAtOffset listOffset with
    | none => .error .fetchFailed
    | some d =>
      if d.length < numberOfValues * 4 % 4294967296 then .error .sizeOutOfBounds
      else .ok (valuesListLoop hb.getIndexAtOffset (valuesListElems d numberOfValues))

/-- `libregf_key_item_read_class_name_data` (libregf_key_item.c:547-705):
fails when the class name size is 0 or exceeds the payload size, otherwise
copies the leading `classNameSize` bytes of the payload. -/
def readClassNameData (d : Bytes) (classNameSize : Nat) : Except KeyErr Bytes :=
  if classNameSize = 0 ∨ d.length < classNameSize then .error .sizeOutOfBounds
  else .ok (d.take classNameSize)

/-- `libregf_key_item_read_class_name` (libregf_key_item.c:710-821):
offset `0xffffffff` and offset 0 with size 0 are successful no-ops,
offset 0 with a nonzero size is an error, any other offset fetches the
cell and copies the leading bytes. -/
def readClassName (hb : HiveBinsList) (classNameOffset classNameSize : Nat) :
    Except KeyErr (Option Bytes) :=
  if classNameOffset = 4294967295 then .ok none
  else if classNameOffset = 0 ∧ classNameSize = 0 then .ok none
  else if classNameOffset = 0 then .error .invalidOffset
  else
    match hb.getCellAtOffset classNameOffset with
    | none => .error .fetchFailed
    | some d =>
      match readClassNameData d classNameSize with
      | .error e => .error e
      | .ok bs => .ok (some bs)

/-- `libregf_key_item_read_security_key` (libregf_key_item.c:826-959).
The external *SecurityKeyDecoder* (`libregf_security_key_read_data`) is a
parameter returning the security descriptor bytes of a decoded transient
security key, which are moved into the key item; offsets 0 and
`0xffffffff`, a fetch failure and a decode failure are fatal. -/
def readSecurityKey (hb : HiveBinsList) (decodeSecurityKey : Bytes → Option Bytes)
    (securityKeyOffset : Nat) : Except KeyErr Bytes :=
  if securityKeyOffset = 0 ∨ securityKeyOffset = 4294967295 then .error .invalidOffset
  else
    match hb.getCellAtOffset securityKeyOffset with
    | none => .error .fetchFailed
    | some d =>
      match decodeSecurityKey d with
      | none => .error .decodeFailed
      | some sd => .ok sd

/-- The fields of a decoded named key used by `libregf_key_item.c`
(the byte-level decoder `libregf_named_key_read_data` is external). -/
structure NamedKey where
  classNameOffset : Nat
  classNameSize : Nat
  securityKeyOffset : Nat
  valuesListOffset : Nat
  numberOfValues : Nat
  subKeysListOffset : Nat
  numberOfSubKeys : Nat
  deriving DecidableEq, Repr

/-- The observable state of a loaded `libregf_key_item_t`. -/
structure KeyItem where
  namedKey : NamedKey
  className : Option Bytes
  securityDescriptor : Option Bytes
  valuesList : List Nat
  corrupted : Bool
  deriving DecidableEq, Repr

/-- The outcome of a successful key item load: the key item and the
sub-nodes data range installed on the tree node, if any. -/
structure LoadResult where
  keyItem : KeyItem
  subNodesRange : Option Nat
  deriving DecidableEq, Repr

/-- The sub-keys step of `libregf_key_item_read_named_key`
(libregf_key_item.c:379-440): with sub keys present and no sub-nodes data
range set on the tree node, probe the sub-keys list offset; an unknown
offset sets the corruption flag and installs no range, a known offset
installs the range.  The walk itself is deferred to the sub-nodes
loader. -/
def loadSubKeysRange (hb : HiveBinsList) (nk : NamedKey) (subNodesRangeIsSet : Bool) :
    Option Nat × Bool :=
  if 0 < nk.numberOfSubKeys ∧ subNodesRangeIsSet = false then
    if hb.getIndexAtOffset nk.subKeysListOffset then (some nk.subKeysListOffset, false)
    else (none, true)
  else (none, false)

/-- The values step of `libregf_key_item_read_named_key`
(libregf_key_item.c:475-517): probe the values list offset; an unknown
offset sets the corruption flag and leaves the list empty, a known offset
runs `libregf_key_item_read_values_list`. -/
def loadValues (hb : HiveBinsList) (nk : NamedKey) : Except KeyErr (List Nat × Bool) :=
  if hb.getIndexAtOffset nk.valuesListOffset = false then .ok ([], true)
  else readValuesList hb nk.numberOfValues nk.valuesListOffset

/-- `libregf_key_item_read_named_key` (libregf_key_item.c:209-542): the
aggregate key item load.  The external decoders are parameters:
`decodeNamedKey` is `libregf_named_key_read_data` applied to the cell
bytes and the expected name hash, `decodeSecurityKey` is
`libregf_security_key_read_data`.  `subNodesRangeIsSet` is the tree
node's `libfdata_tree_node_sub_nodes_data_range_is_set` answer. -/
def readNamedKey (hb : HiveBinsList) (decodeNamedKey : Bytes → Nat → Option NamedKey)
    (decodeSecurityKey : Bytes → Option Bytes) (subNodesRangeIsSet : Bool)
    (namedKeyOffset namedKeyHash : Nat) : Except KeyErr LoadResult :=
  if namedKeyOffset = 0 ∨ 4294967295 ≤ namedKeyOffset then .error .invalidOffset
  else
    match hb.getCellAtOffset namedKeyOffset with
    | none => .error .fetchFailed
    | some d =>
      match decodeNamedKey d namedKeyHash with
      | none => .error .decodeFailed
      | some nk =>
        match readClassName hb nk.classNameOffset nk.classNameSize with
        | .error e => .error e
        | .ok className =>
          match
            (if nk.securityKeyOffset = 4294967295 then .ok none
             else Except.map some (readSecurityKey hb decodeSecurityKey nk.securityKeyOffset)) with
          | .error e => .error e
          | .ok securityDescriptor =>
            match loadValues hb nk with
            | .error e => .error e
            | .ok v =>
              .ok { keyItem :=
                      { namedKey := nk
                        className := className
                        securityDescriptor := securityDescriptor
                        valuesList := v.1
                        corrupted := (loadSubKeysRange hb nk subNodesRangeIsSet).2 || v.2 }
                    subNodesRange := (loadSubKeysRange hb nk subNodesRangeIsSet).1 }

/-- `libregf_key_item_free` (libregf_key_item.c:120-204) on the state of a
non-null `key_item` pointer: `none` is an already-NULL target.  Freeing a
NULL target is a successful no-op; freeing a live item frees its owned
sub-objects (the external frees are modelled as succeeding) and resets the
target to NULL.  The `Int` is the C return value. -/
def keyItemFree : Option KeyItem → Int × Option KeyItem
  | none => (1, none)
  | some _ => (1, none)

/-! Concrete hive fixtures used by the witness and evaluation theorems. -/

/-- Fixture: an `lf` index cell at offset 1000 with two elements, offsets
500 (inside a known bin, hash 17) and 600 (unknown, hash 23). -/
def C1store : HiveBinsList where
  getCellAtOffset o :=
    if o = 1000 then some [108, 102, 2, 0, 244, 1, 0, 0, 17, 0, 0, 0, 88, 2, 0, 0, 23, 0, 0, 0]
    else none
  getIndexAtOffset o := o == 500 || o == 1000

/-- Fixture: a 4-byte values-list cell at offset 200. -/
def C3store : HiveBinsList where
  getCellAtOffset o := if o = 200 then some [44, 1, 0, 0] else none
  getIndexAtOffset o := o == 200

/-- Fixture: a values-list cell at offset 200 holding the two element
offsets 300 (inside a known bin) and 3735928559 = 0xdeadbeef (unknown). -/
def C4store : HiveBinsList where
  getCellAtOffset o := if o = 200 then some [44, 1, 0, 0, 239, 190, 173, 222] else none
  getIndexAtOffset o := o == 300

/-- Fixture: a cell at offset 400 whose signature bytes are "xx". -/
def C5store : HiveBinsList where
  getCellAtOffset o := if o = 400 then some [120, 120, 0, 0] else none
  getIndexAtOffset o := o == 400

/-- Fixture named key: two sub keys behind list offset 400 (not a known
bin offset), values list offset 100 (known), no class name, no security
key. -/
def C6nk : NamedKey :=
  ⟨4294967295, 0, 4294967295, 100, 0, 400, 2⟩

/-- Fixture: the named-key cell lives at offset 32; offset 100 is inside
a known bin and offset 400 is not. -/
def C6store : HiveBinsList where
  getCellAtOffset o := if o = 32 then some [110, 107] else none
  getIndexAtOffset o := o == 100

/-- Fixture named-key decoder returning `C6nk`. -/
def C6dnk : Bytes → Nat → Option NamedKey := fun _ _ => some C6nk

/-- Fixture security-key decoder (never reached). -/
def C6dsk : Bytes → Option Bytes := fun _ => none

/-- The load result expected for the `C6store` fixture. -/
def C6res : LoadResult :=
  ⟨⟨C6nk, none, none, [], true⟩, none⟩

/-- Fixture: a 4-byte class-name cell at offset 77. -/
def C7store : HiveBinsList where
  getCellAtOffset o := if o = 77 then some [1, 2, 3, 4] else none
  getIndexAtOffset _ := false

/-- Fixture named key: security key at offset 60, values list offset 100
(known), no class name, no sub keys, no values. -/
def C8nk : NamedKey :=
  ⟨4294967295, 0, 60, 100, 0, 0, 0⟩

/-- Fixture: named-key cell at offset 32, security cell at offset 60. -/
def C8store : HiveBinsList where
  getCellAtOffset o :=
    if o = 32 then some [9]
    else if o = 60 then some [5, 6, 7]
    else none
  getIndexAtOffset o := o == 100

/-- Fixture named-key decoder returning `C8nk`. -/
def C8dnk : Bytes → Nat → Option NamedKey := fun _ _ => some C8nk

/-- Fixture security-key decoder: the descriptor is the whole cell
payload. -/
def C8dsk : Bytes → Option Bytes := fun d => some d

/-- The load result expected for the `C8store` fixture. -/
def C8res : LoadResult :=
  ⟨⟨C8nk, none, some [5, 6, 7], [], false⟩, none⟩

/-- Fixture named key: no values at all, values list offset 100 (known),
no class name, no security key, no sub keys. -/
def C9nk : NamedKey :=
  ⟨4294967295, 0, 4294967295, 100, 0, 0, 0⟩

/-- Fixture: named-key cell at offset 32; offset 100 is inside a known
bin. -/
def C9store : HiveBinsList where
  getCellAtOffset o := if o = 32 then some [3] else none
  getIndexAtOffset o := o == 100

/-- Fixture named-key decoder returning `C9nk`. -/
def C9dnk : Bytes → Nat → Option NamedKey := fun _ _ => some C9nk

/-- Fixture security-key decoder (never reached). -/
def C9dsk : Bytes → Option Bytes := fun _ => none

/-- The load result expected for the `C9store` fixture. -/
def C9res : LoadResult :=
  ⟨⟨C9nk, none, none, [], false⟩, none⟩

/-! Helper lemmas shared by the claim theorems. -/

/-- The values-list element loop keeps exactly the element offsets inside
a known bin range, in order, and reports corruption exactly when some
element offset was unknown. -/
theorem valuesListLoop_eq (known : Nat → Bool) (l : List Nat) :
    valuesListLoop known l = (l.filter (fun o => known o), l.any (fun o => !known o)) := by
  induction l with
  | nil => rfl
  | cons off rest ih =>
    by_cases hk : known off <;>
      simp [valuesListLoop, ih, hk, List.filter_cons, List.any_cons]

/-- Counting: kept elements plus dropped elements make up the list. -/
theorem length_filter_add_countP_not (p : Nat → Bool) (l : List Nat) :
    (l.filter p).length + l.countP (fun o => !p o) = l.length := by
  induction l with
  | nil => rfl
  | cons a l ih =>
    by_cases h : p a <;> simp [List.filter_cons, List.countP_cons, h] <;> omega

/-- A list all of whose elements satisfy `p` has no element violating it. -/
theorem any_not_of_all (p : Nat → Bool) (l : List Nat) (h : ∀ o ∈ l, p o = true) :
    l.any (fun o => !p o) = false := by
  induction l with
  | nil => rfl
  | cons a l ih =>
    simp [List.any_cons, h a (by simp), ih fun o ho => h o (by simp [ho])]

/-- The stateful element loop computes the same descriptors and status as
the pure one whenever the two walks used below leaf level agree. -/
theorem processSubKeysElemsSt_fst {σ : Type} (known : Nat → Bool)
    (walkSt : Nat → σ → (List SubNode × Except KeyErr Bool) × σ)
    (walk : Nat → List SubNode × Except KeyErr Bool)
    (hw : ∀ o s, (walkSt o s).1 = walk o) (atLeaf : Bool) :
    ∀ (l : List (Nat × Nat)) (s : σ),
      (processSubKeysElemsSt known walkSt atLeaf l s).1 =
        processSubKeysElems known walk atLeaf l := by
  intro l
  induction l with
  | nil => intro s; rfl
  | cons e rest ih =>
    intro s
    obtain ⟨off, h⟩ := e
    by_cases hk : known off
    · by_cases hl : atLeaf = true
      · subst hl
        simp [processSubKeysElemsSt, processSubKeysElems, hk, ih s]
      · rw [Bool.not_eq_true] at hl
        subst hl
        rcases hws : walkSt off s with ⟨⟨ns, r⟩, s1⟩
        have h1 : walk off = (ns, r) := by rw [← hw off s, hws]
        cases r with
        | error e2 =>
          simp [processSubKeysElemsSt, processSubKeysElems, hk, hws, h1]
        | ok b =>
          simp [processSubKeysElemsSt, processSubKeysElems, hk, hws, h1, ih s1]
    · simp [processSubKeysElemsSt, processSubKeysElems, hk, ih s]

/-! Claim theorems. -/

/-- C10: `libregf_key_item_free` on a pointer whose target is already NULL
succeeds and changes nothing, every free resets the target to NULL, and
freeing twice in succession succeeds and is observationally the same as
freeing once. -/
theorem key_item_free_idempotent :
    keyItemFree none = (1, none) ∧
    ∀ s : Option KeyItem,
      (keyItemFree s).1 = 1 ∧ (keyItemFree s).2 = none ∧
      keyItemFree (keyItemFree s).2 = (1, none) ∧
      (keyItemFree (keyItemFree s).2).2 = (keyItemFree s).2 := by
  refine ⟨rfl, fun s => ?_⟩
  cases s <;> simp [keyItemFree]

/-- C2: the sub-keys walk run against a store whose cache state is evicted
or permuted arbitrarily between any two fetches returns the same status
and appends the same sub-node descriptors in the same order as the walk
against a store that never evicts, for every adversarial cache-evolution
function, every initial cache state, every fuel and every offset. -/
theorem sub_keys_walk_cache_independent {σ : Type} (hb : HiveBinsList)
    (step : σ → Nat → σ) :
    ∀ (fuel off : Nat) (s : σ),
      (readSubKeysListSt hb step fuel off s).1 = readSubKeysList hb fuel off := by
  intro fuel
  induction fuel with
  | zero => intro off s; rfl
  | succ fuel ih =>
    intro off s
    by_cases hoff : off = 0 ∨ off = 4294967295
    · simp [readSubKeysListSt, readSubKeysList, hoff]
    · rcases hc : hb.getCellAtOffset off with _ | d
      · simp [readSubKeysListSt, readSubKeysList, hoff, hc]
      · rcases hp : parseSubKeysList d with e | ⟨esize, atLeaf, n⟩
        · simp [readSubKeysListSt, readSubKeysList, hoff, hc, hp]
        · have hmain := processSubKeysElemsSt_fst hb.getIndexAtOffset
            (readSubKeysListSt hb step fuel) (readSubKeysList hb fuel)
            (fun o s2 => ih o s2) atLeaf (subKeysListElems d esize n) (step s off)
          simp [readSubKeysListSt, readSubKeysList, hoff, hc, hp, hmain]

/-- C5: the sub-keys index walk fails on a fetched cell at its structural
stage, appending no child node from that cell, exactly when the payload is
smaller than the 4-byte index-cell header, the signature is none of lf,
lh, li, ri, or the payload is smaller than the header plus
`number_of_elements * element_size`; the signature determines the shape:
ri gives element size 4 at interior level, li element size 4 at leaf
level, lf and lh element size 8 at leaf level. -/
theorem sub_keys_list_structural_errors (st : HiveBinsList) (fuel off : Nat)
    (d : Bytes) (h0 : off ≠ 0) (hF : off ≠ 4294967295)
    (hfetch : st.getCellAtOffset off = some d) :
    ((∃ e, parseSubKeysList d = .error e) ↔
      (d.length < 4 ∨ sigKind d = none ∨
        ∃ es lv, sigKind d = some (es, lv) ∧ d.length - 4 < le16 d 2 * es)) ∧
    (∀ e, parseSubKeysList d = .error e →
      readSubKeysList st (fuel + 1) off = ([], .error e)) ∧
    (d.getD 0 0 = 114 ∧ d.getD 1 0 = 105 → sigKind d = some (4, false)) ∧
    (d.getD 0 0 = 108 ∧ d.getD 1 0 = 105 → sigKind d = some (4, true)) ∧
    (d.getD 0 0 = 108 ∧ (d.getD 1 0 = 102 ∨ d.getD 1 0 = 104) →
      sigKind d = some (8, true)) := by
  refine ⟨⟨?_, ?_⟩, ?_, ?_, ?_, ?_⟩
  · rintro ⟨e, he⟩
    by_cases h4 : d.length < 4
    · exact Or.inl h4
    · rcases hsk : sigKind d with _ | ⟨es, lv⟩
      · exact Or.inr (Or.inl rfl)
      · by_cases hsz : d.length - 4 < le16 d 2 * es
        · exact Or.inr (Or.inr ⟨es, lv, rfl, hsz⟩)
        · simp [parseSubKeysList, h4, hsk, hsz] at he
  · rintro (h4 | hsk | ⟨es, lv, hsk, hsz⟩)
    · exact ⟨.cellTooSmall, by simp [parseSubKeysList, h4]⟩
    · by_cases h4 : d.length < 4
      · exact ⟨.cellTooSmall, by simp [parseSubKeysList, h4]⟩
      · exact ⟨.badSignature, by simp [parseSubKeysList, h4, hsk]⟩
    · by_cases h4 : d.length < 4
      · exact ⟨.cellTooSmall, by simp [parseSubKeysList, h4]⟩
      · exact ⟨.sizeOutOfBounds, by simp [parseSubKeysList, h4, hsk, hsz]⟩
  · intro e he
    simp [readSubKeysList, h0, hF, hfetch, he]
  · rintro ⟨ha, hb2⟩
    simp only [sigKind]
    rw [ha, hb2]
    decide
  · rintro ⟨ha, hb2⟩
    simp only [sigKind]
    rw [ha, hb2]
    decide
  · rintro ⟨ha, hb2⟩
    simp only [sigKind]
    rcases hb2 with hb2 | hb2 <;> rw [ha, hb2] <;> decide

/-- C5 witness: scenario S6, a cell at offset 400 whose signature bytes
are "xx": the walk returns an error and appends no child node. -/
theorem sub_keys_list_structural_errors_witness :
    readSubKeysList C5store 1 400 = ([], .error .badSignature) :=
  (sub_keys_list_structural_errors C5store 0 400 [120, 120, 0, 0]
    (by decide) (by decide) rfl).2.1 .badSignature rfl

/-- C4: on a values-list cell that is fetched successfully and holds all
its elements, the elements appended are exactly those whose offsets lie in
a known bin range, in on-disk order, the corruption flag is reported
exactly when some element was dropped, the final count is
`number_of_values` minus the dropped elements, and with every offset valid
the whole on-disk list is appended without corruption. -/
theorem values_list_appends_known_in_order (hb : HiveBinsList) (n off : Nat)
    (d : Bytes) (h0 : off ≠ 0) (hF : off ≠ 4294967295)
    (hfetch : hb.getCellAtOffset off = some d) (hsize : n * 4 ≤ d.length) :
    readValuesList hb n off =
      .ok ((valuesListElems d n).filter (fun o => hb.getIndexAtOffset o),
        (valuesListElems d n).any (fun o => !hb.getIndexAtOffset o)) ∧
    ((valuesListElems d n).filter (fun o => hb.getIndexAtOffset o)).length =
      n - (valuesListElems d n).countP (fun o => !hb.getIndexAtOffset o) ∧
    ((∀ o ∈ valuesListElems d n, hb.getIndexAtOffset o = true) →
      readValuesList hb n off = .ok (valuesListElems d n, false)) := by
  have hlen : (valuesListElems d n).length = n := by
    simp [valuesListElems]
  have hmod : ¬ d.length < n * 4 % 4294967296 :=
    Nat.not_lt.mpr (le_trans (Nat.mod_le _ _) hsize)
  have hmain : readValuesList hb n off =
      .ok ((valuesListElems d n).filter (fun o => hb.getIndexAtOffset o),
        (valuesListElems d n).any (fun o => !hb.getIndexAtOffset o)) := by
    by_cases hn : n = 0
    · subst hn
      simp [readValuesList, valuesListElems]
    · simp [readValuesList, hn, h0, hF, hfetch, hmod, valuesListLoop_eq]
  refine ⟨hmain, ?_, ?_⟩
  · have := length_filter_add_countP_not (fun o => hb.getIndexAtOffset o)
      (valuesListElems d n)
    omega
  · intro hall
    rw [hmain, List.filter_eq_self.mpr hall,
      any_not_of_all (fun o => hb.getIndexAtOffset o) _ hall]

/-- C4 witness: scenario S4, a values list of two elements where offset
300 is known and 0xdeadbeef is not: one element is appended, in order,
and corruption is reported. -/
theorem values_list_appends_known_in_order_witness :
    readValuesList C4store 2 200 = .ok ([300], true) :=
  ((values_list_appends_known_in_order C4store 2 200
      [44, 1, 0, 0, 239, 190, 173, 222]
      (by decide) (by decide) rfl (by decide)).1).trans (by rfl)

/-- Unfolding of `readNamedKey` past a successful fetch and named-key
decode, shared by the claim theorems below. -/
theorem readNamedKey_eq (hb : HiveBinsList) (dnk : Bytes → Nat → Option NamedKey)
    (dsk : Bytes → Option Bytes) (rs : Bool) (o h : Nat) (d : Bytes) (nk : NamedKey)
    (h0 : o ≠ 0) (hF : o < 4294967295)
    (hfetch : hb.getCellAtOffset o = some d) (hdec : dnk d h = some nk) :
    readNamedKey hb dnk dsk rs o h =
      match readClassName hb nk.classNameOffset nk.classNameSize with
      | .error e => .error e
      | .ok className =>
        match (if nk.securityKeyOffset = 4294967295 then Except.ok none
               else Except.map some (readSecurityKey hb dsk nk.securityKeyOffset)) with
        | .error e => .error e
        | .ok securityDescriptor =>
          match loadValues hb nk with
          | .error e => .error e
          | .ok v =>
            .ok { keyItem :=
                    { namedKey := nk
                      className := className
                      securityDescriptor := securityDescriptor
                      valuesList := v.1
                      corrupted := (loadSubKeysRange hb nk rs).2 || v.2 }
                  subNodesRange := (loadSubKeysRange hb nk rs).1 } := by
  have hco : ¬(o = 0 ∨ 4294967295 ≤ o) := by
    rintro (hc | hc)
    · exact h0 hc
    · omega
  simp [readNamedKey, hco, hfetch, hdec]

/-- C6: during a key item load with sub keys present and no sub-nodes data
range set on the tree node, a sub-keys list offset outside every known bin
range sets the CORRUPTED flag and installs no sub-nodes range (the key
shows zero children), while a known offset installs the range
`sub_keys_list_offset`; the walk itself is deferred (`readNamedKey` never
invokes `readSubKeysList`). -/
theorem named_key_sub_keys_range_install (hb : HiveBinsList)
    (dnk : Bytes → Nat → Option NamedKey) (dsk : Bytes → Option Bytes)
    (o h : Nat) (d : Bytes) (nk : NamedKey) (res : LoadResult)
    (h0 : o ≠ 0) (hF : o < 4294967295)
    (hfetch : hb.getCellAtOffset o = some d) (hdec : dnk d h = some nk)
    (hsub : 0 < nk.numberOfSubKeys)
    (hload : readNamedKey hb dnk dsk false o h = .ok res) :
    (hb.getIndexAtOffset nk.subKeysListOffset = false →
      res.subNodesRange = none ∧ res.keyItem.corrupted = true) ∧
    (hb.getIndexAtOffset nk.subKeysListOffset = true →
      res.subNodesRange = some nk.subKeysListOffset) := by
  rw [readNamedKey_eq hb dnk dsk false o h d nk h0 hF hfetch hdec] at hload
  split at hload
  · simp at hload
  · split at hload
    · simp at hload
    · split at hload
      · simp at hload
      · injection hload with hres
        subst hres
        constructor
        · intro hr
          simp [loadSubKeysRange, hsub, hr]
        · intro hr
          simp [loadSubKeysRange, hsub, hr]

/-- C6 witness: a key with two sub keys whose sub-keys list offset 400 is
not a known bin offset loads successfully with no sub-nodes range and the
corruption flag set. -/
theorem named_key_sub_keys_range_install_witness :
    readNamedKey C6store C6dnk C6dsk false 32 7 = .ok C6res ∧
    C6res.subNodesRange = none ∧ C6res.keyItem.corrupted = true :=
  ⟨rfl,
    (named_key_sub_keys_range_install C6store C6dnk C6dsk 32 7 [110, 107] C6nk
      C6res (by decide) (by decide) rfl rfl (by decide) rfl).1 rfl⟩

/-- C7: after a successful class-name read, a class name is present
exactly when the offset is neither 0 nor 0xffffffff and the size is
positive and bounded by the payload of the referenced cell, in which case
the stored bytes are the leading `class_name_size` bytes of that payload;
offset 0xffffffff, and offset 0 with size 0, are successful no-ops, while
offset 0 with a positive size is an error. -/
theorem class_name_presence (hb : HiveBinsList) (off size : Nat) :
    readClassName hb 4294967295 size = .ok none ∧
    readClassName hb 0 0 = .ok none ∧
    (0 < size → readClassName hb 0 size = .error .invalidOffset) ∧
    (∀ res, readClassName hb off size = .ok res →
      ((∃ bs, res = some bs) ↔
        (off ≠ 0 ∧ off ≠ 4294967295 ∧ 0 < size ∧
          ∃ d, hb.getCellAtOffset off = some d ∧ size ≤ d.length)) ∧
      ∀ bs, res = some bs →
        ∃ d, hb.getCellAtOffset off = some d ∧ bs = d.take size) := by
  refine ⟨by simp [readClassName], by simp [readClassName], ?_, ?_⟩
  · intro hs
    have hsz : size ≠ 0 := Nat.pos_iff_ne_zero.mp hs
    simp [readClassName, hsz]
  · intro res hres
    by_cases hF : off = 4294967295
    · subst hF
      rw [show readClassName hb 4294967295 size = .ok none from by
        simp [readClassName]] at hres
      injection hres with hr
      subst hr
      refine ⟨by simp, ?_⟩
      intro bs hbs
      exact absurd hbs (by simp)
    · by_cases h0 : off = 0
      · subst h0
        by_cases hsz : size = 0
        · subst hsz
          rw [show readClassName hb 0 0 = .ok none from by simp [readClassName]] at hres
          injection hres with hr
          subst hr
          refine ⟨by simp, ?_⟩
          intro bs hbs
          exact absurd hbs (by simp)
        · simp [readClassName, hsz] at hres
      · rcases hc : hb.getCellAtOffset off with _ | d
        · simp [readClassName, hF, h0, hc] at hres
        · by_cases hbad : size = 0 ∨ d.length < size
          · simp [readClassName, hF, h0, hc, readClassNameData, hbad] at hres
          · push_neg at hbad
            obtain ⟨hsz0, hlen⟩ := hbad
            rw [show readClassName hb off size = .ok (some (d.take size)) from by
              simp [readClassName, hF, h0, hc, readClassNameData, hsz0,
                Nat.not_lt.mpr hlen]] at hres
            injection hres with hr
            subst hr
            constructor
            · constructor
              · intro _
                exact ⟨h0, hF, Nat.pos_of_ne_zero hsz0, d, rfl, hlen⟩
              · intro _
                exact ⟨d.take size, rfl⟩
            · intro bs hbs
              injection hbs with hbs2
              exact ⟨d, rfl, hbs2.symm⟩

/-- C7 witness: the sentinel offset is a no-op, offset 0 with size 5 is
an error, and a loaded class name holds the leading bytes of the cell at
offset 77. -/
theorem class_name_presence_witness :
    readClassName C7store 4294967295 5 = .ok none ∧
    readClassName C7store 0 5 = .error .invalidOffset ∧
    ∃ d, C7store.getCellAtOffset 77 = some d ∧ ([1, 2] : Bytes) = d.take 2 :=
  ⟨(class_name_presence C7store 77 5).1,
   (class_name_presence C7store 77 5).2.2.1 (by decide),
   ((class_name_presence C7store 77 2).2.2.2 (some [1, 2]) rfl).2 [1, 2] rfl⟩

/-- C8: a sentinel security key offset 0xffffffff skips the security step
(no descriptor, and the load result does not depend on the security
decoder at all, so the step contributes neither errors nor corruption); a
non-sentinel offset requires the security cell to fetch and decode, with
the descriptor bytes of the transient security key moved into the key
item, and any failure there, including offset 0, is fatal for the whole
load. -/
theorem security_key_handling (hb : HiveBinsList)
    (dnk : Bytes → Nat → Option NamedKey) (dsk : Bytes → Option Bytes)
    (rs : Bool) (o h : Nat) (d : Bytes) (nk : NamedKey)
    (h0 : o ≠ 0) (hF : o < 4294967295)
    (hfetch : hb.getCellAtOffset o = some d) (hdec : dnk d h = some nk) :
    (nk.securityKeyOffset = 4294967295 →
      (∀ res, readNamedKey hb dnk dsk rs o h = .ok res →
        res.keyItem.securityDescriptor = none) ∧
      ∀ dsk2, readNamedKey hb dnk dsk rs o h = readNamedKey hb dnk dsk2 rs o h) ∧
    (nk.securityKeyOffset ≠ 4294967295 →
      (∀ res, readNamedKey hb dnk dsk rs o h = .ok res →
        ∃ sd, readSecurityKey hb dsk nk.securityKeyOffset = .ok sd ∧
          res.keyItem.securityDescriptor = some sd) ∧
      ∀ e cn, readSecurityKey hb dsk nk.securityKeyOffset = .error e →
        readClassName hb nk.classNameOffset nk.classNameSize = .ok cn →
        readNamedKey hb dnk dsk rs o h = .error e) ∧
    readSecurityKey hb dsk 0 = .error .invalidOffset := by
  refine ⟨fun hsk => ⟨?_, ?_⟩, fun hsk => ⟨?_, ?_⟩, by simp [readSecurityKey]⟩
  · intro res hres
    rw [readNamedKey_eq hb dnk dsk rs o h d nk h0 hF hfetch hdec] at hres
    split at hres
    · simp at hres
    · split at hres
      · simp at hres
      next sd hsd =>
        split at hres
        · simp at hres
        · injection hres with hr
          subst hr
          rw [if_pos hsk] at hsd
          injection hsd with hsd2
          simp [← hsd2]
  · intro dsk2
    rw [readNamedKey_eq hb dnk dsk rs o h d nk h0 hF hfetch hdec,
      readNamedKey_eq hb dnk dsk2 rs o h d nk h0 hF hfetch hdec, if_pos hsk,
      if_pos hsk]
  · intro res hres
    rw [readNamedKey_eq hb dnk dsk rs o h d nk h0 hF hfetch hdec] at hres
    split at hres
    · simp at hres
    · split at hres
      · simp at hres
      next sd hsd =>
        split at hres
        · simp at hres
        · injection hres with hr
          subst hr
          rw [if_neg hsk] at hsd
          rcases hrs : readSecurityKey hb dsk nk.securityKeyOffset with e | sd2
          · rw [hrs] at hsd
            simp [Except.map] at hsd
          · rw [hrs] at hsd
            simp [Except.map] at hsd
            exact ⟨sd2, rfl, by simp [← hsd]⟩
  · intro e cn hse hcn
    rw [readNamedKey_eq hb dnk dsk rs o h d nk h0 hF hfetch hdec]
    simp [hcn, hsk, hse, Except.map]

/-- C8 witness: a key whose security key offset 60 resolves loads with the
decoded descriptor bytes moved into the key item. -/
theorem security_key_handling_witness :
    readNamedKey C8store C8dnk C8dsk false 32 7 = .ok C8res ∧
    ∃ sd, readSecurityKey C8store C8dsk 60 = .ok sd ∧
      C8res.keyItem.securityDescriptor = some sd :=
  ⟨rfl,
    ((security_key_handling C8store C8dnk C8dsk false 32 7 [9] C8nk (by decide)
      (by decide) rfl rfl).2.1 (by decide)).1 C8res rfl⟩

/-- C9: with `number_of_values = 0`, `libregf_key_item_read_values_list`
succeeds immediately with an empty list for every list offset, sentinels
included, before the sentinel validation and before any cell fetch (the
result does not mention the store at all), and a successful key item load
with zero values leaves the values list empty. -/
theorem values_list_zero_count_no_fetch (hb : HiveBinsList)
    (dnk : Bytes → Nat → Option NamedKey) (dsk : Bytes → Option Bytes)
    (rs : Bool) (o h : Nat) :
    (∀ off, readValuesList hb 0 off = .ok ([], false)) ∧
    ∀ d nk res, hb.getCellAtOffset o = some d → dnk d h = some nk →
      o ≠ 0 → o < 4294967295 →
      nk.numberOfValues = 0 → readNamedKey hb dnk dsk rs o h = .ok res →
      res.keyItem.valuesList = [] := by
  refine ⟨fun off => rfl, ?_⟩
  intro d nk res hfetch hdec h0 hF hnv hload
  rw [readNamedKey_eq hb dnk dsk rs o h d nk h0 hF hfetch hdec] at hload
  split at hload
  · simp at hload
  · split at hload
    · simp at hload
    · split at hload
      · simp at hload
      next v hv =>
        injection hload with hr
        subst hr
        rw [loadValues] at hv
        by_cases hpr : hb.getIndexAtOffset nk.valuesListOffset = false
        · rw [if_pos hpr] at hv
          injection hv with hv2
          simp [← hv2]
        · rw [if_neg hpr, hnv] at hv
          have h1 : readValuesList hb 0 nk.valuesListOffset = .ok ([], false) := rfl
          rw [h1] at hv
          injection hv with hv2
          simp [← hv2]

/-- C9 witness: a zero-count values list succeeds at offsets 0 and
0xffffffff without touching the store, and a concrete load with zero
values has an empty values list. -/
theorem values_list_zero_count_no_fetch_witness :
    readValuesList C9store 0 0 = .ok ([], false) ∧
    readValuesList C9store 0 4294967295 = .ok ([], false) ∧
    C9res.keyItem.valuesList = [] :=
  ⟨(values_list_zero_count_no_fetch C9store C9dnk C9dsk false 32 7).1 0,
   (values_list_zero_count_no_fetch C9store C9dnk C9dsk false 32 7).1 4294967295,
   (values_list_zero_count_no_fetch C9store C9dnk C9dsk false 32 7).2 [3] C9nk
     C9res rfl rfl (by decide) (by decide) rfl rfl⟩

/-- C1: evaluation of the sub-keys walk at a leaf index cell with one
known element (offset 500, hash 17) and one unknown element (offset 600):
the walk appends exactly the known element and reports corruption by the
0-return (`.ok true`), and the sub-nodes loader converts that report into
plain success, with no write to any key item CORRUPTED flag anywhere on
this path (the flag is written only in `readNamedKey` and
`readValuesList`); the claim that the parent key item ends up flagged is
not implemented, matching the TODO at libregf_key_item.c:1645. -/
theorem sub_keys_walk_corruption_not_flagged :
    readSubKeysList C1store 2 1000 = ([⟨500, 17⟩], .ok true) ∧
    readSubNodes C1store 2 1000 = ([⟨500, 17⟩], .ok ()) := by
  constructor <;> rfl

/-- C3: evaluation of the values-list size check at the failing input
`number_of_values = 2^30` with a 4-byte cell: the C `uint32_t` product
`number_of_values * 4` wraps to 0, so the out-of-bounds check passes and
the function proceeds to the element loop although the payload is far
smaller than the exact product `2^30 * 4` demanded by the claim. -/
theorem values_list_size_check_overflow :
    1073741824 * 4 % 4294967296 = 0 ∧
    ([44, 1, 0, 0] : Bytes).length < 1073741824 * 4 ∧
    ∃ r, readValuesList C3store 1073741824 200 = .ok r := by
  refine ⟨by decide, by decide, ⟨_, rfl⟩⟩
